import Mathlib

/-!
Verification development for the prisma-extension-emitter event distribution
subsystem.  The definitions below are shallow embeddings of the repository's
TypeScript sources:

  * src/listeners.ts        : the matcher and the local dispatcher
  * src/event-listener.ts   : listener registration / identity-based removal
  * src/runner.ts           : combined local dispatch + MQTT publish
  * src/extension.ts        : per-operation emit gating
  * src/mqtt.ts             : broker publisher, subscriber table, message handler

JavaScript values appearing in filter conditions and operation arguments are
modelled by the inductive types `Scalar` and `CondV`; `undefined` is `Option.none`;
object identity of listener-config instances (what `!==` and `Set` membership
compare) is modelled by a natural-number id where the claims are about the
registry and subscription lifecycle.
-/

namespace PrismaEmitter

/-- A JavaScript primitive value as it occurs in filter conditions, `where` /
`data` arguments, and results. -/
inductive Scalar where
  | str (s : String)
  | int (n : Int)
  | bool (b : Bool)
  | null
deriving DecidableEq, Repr

/-- A listener filter condition value, as inspected at runtime by `matches`
(src/listeners.ts):  the literal `true` sentinel is the scalar `Scalar.bool true`,
an array is `arr`, a predicate function is `fn`, everything else is a plain
scalar compared with strict equality. -/
inductive CondV where
  | prim (s : Scalar)
  | arr (l : List Scalar)
  | fn (p : Option Scalar → Bool)

/-- Field lookup in a JavaScript object, `obj?.[field]`:  `none` is `undefined`. -/
def getField (fields : List (String × Scalar)) (f : String) : Option Scalar :=
  fields.lookup f

/-- The mutation arguments seen by the matcher: `args.where` and `args.data`
(an absent object behaves as the empty field list — every lookup is `undefined`). -/
structure Args where
  whereArgs : List (String × Scalar)
  dataArgs : List (String × Scalar)
deriving DecidableEq, Repr

/-- One step of the `.every` body in `matches` (src/listeners.ts lines 13-19 and
24-30), with `cond` the declared condition and `val` the candidate value:
`if (cond === true) return val !== undefined; if (cond === val) return true;
if (Array.isArray(cond)) return cond.includes(val); if (typeof cond === "function")
return cond(val); return false;`.  For an array or function condition the strict
equality `cond === val` can never hold against a primitive candidate, so the
branches collapse as written here. -/
def evalCond (cond : CondV) (val : Option Scalar) : Bool :=
  match cond with
  | .prim s => if s = .bool true then val.isSome else decide (val = some s)
  | .arr l =>
    match val with
    | some v => l.contains v
    | none => false
  | .fn p => p val

/-- A registered listener configuration (src/types.ts `ListenerConfig` plus the
`remoteOnly` flag used by src/listeners.ts).  The callback itself is modelled
by the single observable bit `fails`: whether invoking it throws / rejects. -/
structure ListenerConfig where
  whereFilter : Option (List (String × CondV))
  dataFilter : Option (List (String × CondV))
  allowRemote : Bool
  remoteOnly : Bool
  fails : Bool

/-- `matches(config, args)` from src/listeners.ts lines 10-34: each filter group
is `true` when absent, otherwise the conjunction (`.every`) of its field
conditions evaluated against `args.where` resp. `args.data`; the result is the
conjunction of the two groups. -/
def matchesConfig (config : ListenerConfig) (args : Args) : Bool :=
  let w := match config.whereFilter with
    | none => true
    | some conds => conds.all fun fc => evalCond fc.2 (getField args.whereArgs fc.1)
  let d := match config.dataFilter with
    | none => true
    | some conds => conds.all fun fc => evalCond fc.2 (getField args.dataArgs fc.1)
  w && d

theorem evalCond_prim_scalar (s : Scalar) (hs : s ≠ .bool true) (val : Option Scalar) :
    evalCond (.prim s) val = true ↔ val = some s := by
  simp [evalCond, hs]

/-- C8: for every listener config whose whereFilter (resp. dataFilter) maps a
field to a scalar condition value (in the spec's taxonomy a scalar condition is
distinct from the literal `true` sentinel), `matches` evaluates that field's
condition to true iff the scalar is deep-equal (for primitives: equal) to the
candidate value read from `args.where[field]` (resp. `args.data[field]`). -/
theorem scalar_condition_matches_iff_equal (s : Scalar) (hs : s ≠ .bool true)
    (f : String) (args : Args) (ar ro fl : Bool) :
    (evalCond (.prim s) (getField args.whereArgs f) = true ↔
      getField args.whereArgs f = some s)
  ∧ (matchesConfig ⟨some [(f, .prim s)], none, ar, ro, fl⟩ args = true ↔
      getField args.whereArgs f = some s)
  ∧ (matchesConfig ⟨none, some [(f, .prim s)], ar, ro, fl⟩ args = true ↔
      getField args.dataArgs f = some s) := by
  refine ⟨evalCond_prim_scalar s hs _, ?_, ?_⟩ <;>
    simp [matchesConfig, evalCond, hs]

/-- Witness for C8 at a concrete input: condition `"ACTIVE"` on field `"status"`,
candidate `args.where.status = "ACTIVE"`. -/
theorem scalar_condition_matches_iff_equal_witness :
    (Scalar.str "ACTIVE" ≠ Scalar.bool true)
  ∧ (matchesConfig ⟨some [("status", .prim (.str "ACTIVE"))], none, false, false, false⟩
      ⟨[("status", .str "ACTIVE")], []⟩ = true ↔
      getField ([("status", Scalar.str "ACTIVE")]) "status" = some (.str "ACTIVE")) := by
  exact ⟨by decide,
    (scalar_condition_matches_iff_equal (.str "ACTIVE") (by decide) "status"
      ⟨[("status", .str "ACTIVE")], []⟩ false false false).2.1⟩

/-- The payload handed to a listener callback: `{ args, model, result, source }`.
`source = none` models a call site that omits the `source` key entirely (the
callback observes `undefined`), as the MQTT message handler does. -/
structure Payload where
  args : Args
  model : String
  result : Scalar
  source : Option String
deriving DecidableEq, Repr

/-- Observable outcome of one dispatch pass: which listener positions were
invoked (with the payload each callback received, in execution order) and which
of those invocations threw and were caught and logged.  The dispatch functions
below are total Lean functions returning this record, embedding the guarantee
that no exception escapes to the caller. -/
structure DispatchOutcome where
  invocations : List (Nat × Payload)
  errors : List Nat
deriving DecidableEq, Repr

/-- The `for (const cfg of configs)` loop of `executeLocalListeners`
(src/listeners.ts lines 49-62), carrying the position `k` of the head config:
skip when `cfg.remoteOnly && source === "local"`, otherwise invoke the callback
when the filters match, catching and logging a failure and continuing with the
rest.  Each callback is awaited in turn, so invocations are recorded in list
order. -/
def execLoop (args : Args) (model : String) (result : Scalar) (source : String) :
    List ListenerConfig → Nat → DispatchOutcome
  | [], _ => ⟨[], []⟩
  | cfg :: rest, k =>
    let restOut := execLoop args model result source rest (k + 1)
    if cfg.remoteOnly = true ∧ source = "local" then restOut
    else if matchesConfig cfg args = true then
      { invocations := (k, ⟨args, model, result, some source⟩) :: restOut.invocations,
        errors := if cfg.fails then k :: restOut.errors else restOut.errors }
    else restOut

/-- `executeLocalListeners(model, args, result, source)` from src/listeners.ts
lines 40-63: look up the registry entry for `model` (`if (!configs) return;`),
then run the listener loop from position 0. -/
def executeLocalListeners (listeners : List (String × List ListenerConfig))
    (model : String) (args : Args) (result : Scalar) (source : String) : DispatchOutcome :=
  match listeners.lookup model with
  | none => ⟨[], []⟩
  | some configs => execLoop args model result source configs 0

theorem execLoop_mem_invocations (args : Args) (model : String) (result : Scalar)
    (source : String) (cfgs : List ListenerConfig) (k j : Nat) (p : Payload) :
    (j, p) ∈ (execLoop args model result source cfgs k).invocations ↔
      ∃ i cfg, cfgs[i]? = some cfg ∧ j = k + i ∧
        ¬(cfg.remoteOnly = true ∧ source = "local") ∧ matchesConfig cfg args = true ∧
        p = ⟨args, model, result, some source⟩ := by
  induction cfgs generalizing k with
  | nil => simp [execLoop]
  | cons cfg rest ih =>
    simp only [execLoop]
    by_cases hro : cfg.remoteOnly = true ∧ source = "local"
    · rw [if_pos hro, ih]
      constructor
      · rintro ⟨i, c, hc, hj, h1, h2, h3⟩
        exact ⟨i + 1, c, by simpa using hc, by omega, h1, h2, h3⟩
      · rintro ⟨i, c, hc, hj, h1, h2, h3⟩
        cases i with
        | zero => simp only [List.getElem?_cons_zero, Option.some.injEq] at hc
                  exact absurd (hc ▸ hro) h1
        | succ i => exact ⟨i, c, by simpa using hc, by omega, h1, h2, h3⟩
    · rw [if_neg hro]
      by_cases hm : matchesConfig cfg args = true
      · rw [if_pos hm]
        simp only [List.mem_cons, Prod.mk.injEq, ih]
        constructor
        · rintro (⟨hj, hp⟩ | ⟨i, c, hc, hj, h1, h2, h3⟩)
          · exact ⟨0, cfg, by simp, by omega, hro, hm, hp⟩
          · exact ⟨i + 1, c, by simpa using hc, by omega, h1, h2, h3⟩
        · rintro ⟨i, c, hc, hj, h1, h2, h3⟩
          cases i with
          | zero => simp only [List.getElem?_cons_zero, Option.some.injEq] at hc
                    exact Or.inl ⟨by omega, h3⟩
          | succ i => exact Or.inr ⟨i, c, by simpa using hc, by omega, h1, h2, h3⟩
      · rw [if_neg hm, ih]
        constructor
        · rintro ⟨i, c, hc, hj, h1, h2, h3⟩
          exact ⟨i + 1, c, by simpa using hc, by omega, h1, h2, h3⟩
        · rintro ⟨i, c, hc, hj, h1, h2, h3⟩
          cases i with
          | zero => simp only [List.getElem?_cons_zero, Option.some.injEq] at hc
                    exact absurd (hc ▸ h2) hm
          | succ i => exact ⟨i, c, by simpa using hc, by omega, h1, h2, h3⟩

theorem execLoop_mem_errors (args : Args) (model : String) (result : Scalar)
    (source : String) (cfgs : List ListenerConfig) (k j : Nat) :
    j ∈ (execLoop args model result source cfgs k).errors ↔
      ∃ i cfg, cfgs[i]? = some cfg ∧ j = k + i ∧
        ¬(cfg.remoteOnly = true ∧ source = "local") ∧ matchesConfig cfg args = true ∧
        cfg.fails = true := by
  induction cfgs generalizing k with
  | nil => simp [execLoop]
  | cons cfg rest ih =>
    simp only [execLoop]
    by_cases hro : cfg.remoteOnly = true ∧ source = "local"
    · rw [if_pos hro, ih]
      constructor
      · rintro ⟨i, c, hc, hj, h1, h2, h3⟩
        exact ⟨i + 1, c, by simpa using hc, by omega, h1, h2, h3⟩
      · rintro ⟨i, c, hc, hj, h1, h2, h3⟩
        cases i with
        | zero => simp only [List.getElem?_cons_zero, Option.some.injEq] at hc
                  exact absurd (hc ▸ hro) h1
        | succ i => exact ⟨i, c, by simpa using hc, by omega, h1, h2, h3⟩
    · rw [if_neg hro]
      by_cases hm : matchesConfig cfg args = true
      · rw [if_pos hm]
        by_cases hf : cfg.fails
        · simp only [if_pos hf, List.mem_cons, ih]
          constructor
          · rintro (hj | ⟨i, c, hc, hj, h1, h2, h3⟩)
            · exact ⟨0, cfg, by simp, by omega, hro, hm, hf⟩
            · exact ⟨i + 1, c, by simpa using hc, by omega, h1, h2, h3⟩
          · rintro ⟨i, c, hc, hj, h1, h2, h3⟩
            cases i with
            | zero => exact Or.inl (by omega)
            | succ i => exact Or.inr ⟨i, c, by simpa using hc, by omega, h1, h2, h3⟩
        · simp only [if_neg hf, ih]
          constructor
          · rintro ⟨i, c, hc, hj, h1, h2, h3⟩
            exact ⟨i + 1, c, by simpa using hc, by omega, h1, h2, h3⟩
          · rintro ⟨i, c, hc, hj, h1, h2, h3⟩
            cases i with
            | zero => simp only [List.getElem?_cons_zero, Option.some.injEq] at hc
                      exact absurd (hc ▸ h3) hf
            | succ i => exact ⟨i, c, by simpa using hc, by omega, h1, h2, h3⟩
      · rw [if_neg hm, ih]
        constructor
        · rintro ⟨i, c, hc, hj, h1, h2, h3⟩
          exact ⟨i + 1, c, by simpa using hc, by omega, h1, h2, h3⟩
        · rintro ⟨i, c, hc, hj, h1, h2, h3⟩
          cases i with
          | zero => simp only [List.getElem?_cons_zero, Option.some.injEq] at hc
                    exact absurd (hc ▸ h2) hm
          | succ i => exact ⟨i, c, by simpa using hc, by omega, h1, h2, h3⟩

theorem execLoop_fst_ge (args : Args) (model : String) (result : Scalar) (source : String)
    (cfgs : List ListenerConfig) (k : Nat) :
    ∀ jp ∈ (execLoop args model result source cfgs k).invocations, k ≤ jp.1 := by
  intro jp hjp
  obtain ⟨i, c, _, hj, _⟩ := (execLoop_mem_invocations args model result source cfgs k jp.1
    jp.2).mp (by simpa using hjp)
  omega

theorem execLoop_pairwise (args : Args) (model : String) (result : Scalar) (source : String)
    (cfgs : List ListenerConfig) (k : Nat) :
    List.Pairwise (fun a b => a.1 < b.1)
      (execLoop args model result source cfgs k).invocations := by
  induction cfgs generalizing k with
  | nil => simp [execLoop]
  | cons cfg rest ih =>
    simp only [execLoop]
    by_cases hro : cfg.remoteOnly = true ∧ source = "local"
    · rw [if_pos hro]; exact ih (k + 1)
    · rw [if_neg hro]
      by_cases hm : matchesConfig cfg args = true
      · rw [if_pos hm]
        refine List.Pairwise.cons ?_ (ih (k + 1))
        intro jp hjp
        have := execLoop_fst_ge args model result source rest (k + 1) jp hjp
        omega
      · rw [if_neg hm]; exact ih (k + 1)

/-- C5: a listener callback that throws or rejects is caught and logged
(`errors` are exactly the invoked positions whose callback failed), every other
matching listener in the same dispatch is still invoked (the invocation list is
characterized without any reference to the `fails` bits of the configs), and —
the dispatch being a total function into `DispatchOutcome` — no exception
propagates to the caller of dispatch. -/
theorem dispatch_isolates_listener_failures
    (listeners : List (String × List ListenerConfig)) (model : String) (args : Args)
    (result : Scalar) (source : String) (cfgs : List ListenerConfig)
    (hlk : listeners.lookup model = some cfgs) :
    (∀ j p, (j, p) ∈ (executeLocalListeners listeners model args result source).invocations ↔
      ∃ cfg, cfgs[j]? = some cfg ∧ ¬(cfg.remoteOnly = true ∧ source = "local") ∧
        matchesConfig cfg args = true ∧ p = ⟨args, model, result, some source⟩)
  ∧ (∀ j, j ∈ (executeLocalListeners listeners model args result source).errors ↔
      ∃ cfg, cfgs[j]? = some cfg ∧ ¬(cfg.remoteOnly = true ∧ source = "local") ∧
        matchesConfig cfg args = true ∧ cfg.fails = true) := by
  constructor
  · intro j p
    rw [executeLocalListeners, hlk, execLoop_mem_invocations]
    constructor
    · rintro ⟨i, c, hc, hj, h⟩
      have hji : j = i := by omega
      subst hji
      exact ⟨c, hc, h⟩
    · rintro ⟨c, hc, h⟩; exact ⟨j, c, hc, by omega, h⟩
  · intro j
    rw [executeLocalListeners, hlk, execLoop_mem_errors]
    constructor
    · rintro ⟨i, c, hc, hj, h⟩
      have hji : j = i := by omega
      subst hji
      exact ⟨c, hc, h⟩
    · rintro ⟨c, hc, h⟩; exact ⟨j, c, hc, by omega, h⟩

/-- Witness for C5: two filterless listeners on `"user"`, the first one throwing;
the theorem applied at this input shows the second listener is still invoked and
the first failure is logged. -/
theorem dispatch_isolates_listener_failures_witness :
    ((1 : Nat), (⟨⟨[], []⟩, "user", .str "r", some "local"⟩ : Payload)) ∈
      (executeLocalListeners
        [("user", [⟨none, none, false, false, true⟩, ⟨none, none, false, false, false⟩])]
        "user" ⟨[], []⟩ (.str "r") "local").invocations
  ∧ (0 : Nat) ∈
      (executeLocalListeners
        [("user", [⟨none, none, false, false, true⟩, ⟨none, none, false, false, false⟩])]
        "user" ⟨[], []⟩ (.str "r") "local").errors := by
  have h := dispatch_isolates_listener_failures
    [("user", [⟨none, none, false, false, true⟩, ⟨none, none, false, false, false⟩])]
    "user" ⟨[], []⟩ (.str "r") "local"
    [⟨none, none, false, false, true⟩, ⟨none, none, false, false, false⟩] rfl
  exact ⟨(h.1 1 _).mpr ⟨⟨none, none, false, false, false⟩, rfl, by simp, by simp [matchesConfig], rfl⟩,
    (h.2 0).mpr ⟨⟨none, none, false, false, true⟩, rfl, by simp, by simp [matchesConfig], rfl⟩⟩

/-- C7: a dispatch with `source = "local"` never invokes a listener config whose
`remoteOnly` flag is true, regardless of its filters: every invocation of such a
dispatch is of a config at a position whose `remoteOnly` is false (src/listeners.ts
lines 49-53, the `if (cfg.remoteOnly && source === "local") continue;` guard). -/
theorem remoteOnly_skipped_on_local_dispatch
    (listeners : List (String × List ListenerConfig)) (model : String) (args : Args)
    (result : Scalar) (j : Nat) (p : Payload)
    (hinv : (j, p) ∈ (executeLocalListeners listeners model args result "local").invocations) :
    ∃ cfgs cfg, listeners.lookup model = some cfgs ∧ cfgs[j]? = some cfg ∧
      cfg.remoteOnly = false ∧ matchesConfig cfg args = true := by
  rw [executeLocalListeners] at hinv
  rcases hlk : listeners.lookup model with _ | cfgs
  · rw [hlk] at hinv; simp at hinv
  · rw [hlk] at hinv
    obtain ⟨i, c, hc, hj, h1, h2, _⟩ := (execLoop_mem_invocations args model result "local"
      cfgs 0 j p).mp hinv
    have hji : j = i := by omega
    subst hji
    refine ⟨cfgs, c, rfl, hc, ?_, h2⟩
    by_contra hro
    exact h1 ⟨by simpa using hro, rfl⟩

/-- Witness for C7: a registry with a `remoteOnly` listener followed by a plain
listener; the local dispatch invokes position 1 and the theorem yields that the
config at that position has `remoteOnly = false`. -/
theorem remoteOnly_skipped_on_local_dispatch_witness :
    ∃ cfgs cfg,
      ([("user", [(⟨none, none, true, true, false⟩ : ListenerConfig),
          ⟨none, none, false, false, false⟩])]).lookup "user" = some cfgs ∧
      cfgs[(1 : Nat)]? = some cfg ∧ cfg.remoteOnly = false ∧
      matchesConfig cfg ⟨[], []⟩ = true := by
  refine remoteOnly_skipped_on_local_dispatch
    [("user", [⟨none, none, true, true, false⟩, ⟨none, none, false, false, false⟩])]
    "user" ⟨[], []⟩ (.str "r") 1 ⟨⟨[], []⟩, "user", .str "r", some "local"⟩ (by decide)

/-- The wire event envelope `MqttEventPayload` from src/types.ts lines 121-127:
exactly the five fields `model`, `operation`, `args`, `result`, `timestamp`.
(The type carries no event identifier.) -/
structure MqttEventPayload where
  model : String
  operation : String
  args : Args
  result : Scalar
  timestamp : String
deriving DecidableEq, Repr

/-- `mqttConfig.topicPrefix || "prisma/events"`: the default applies when the
configured value is absent or falsy (the empty string). -/
def defaultTopicRoot (root? : Option String) : String :=
  match root? with
  | none => "prisma/events"
  | some s => if s = "" then "prisma/events" else s

/-- `publishToMqtt(model, args, result, operation)` from src/mqtt.ts lines
170-202.  `connected` models `mqttPublisher !== null && mqttPublisher.connected`
and `enabled` models `mqttConfig?.enabled`; when either fails the function
returns without doing anything.  Otherwise it builds the topic
`{topicPrefix}/{model}/{operation}` and the envelope (note: no event id is
generated or recorded anywhere) and hands both to the broker client. -/
def publishToMqtt (connected enabled : Bool) (root? : Option String) (now : String)
    (model : String) (args : Args) (result : Scalar) (operation : String) :
    Option (String × MqttEventPayload) :=
  if connected = true ∧ enabled = true then
    some (defaultTopicRoot root? ++ "/" ++ model ++ "/" ++ operation,
      ⟨model, operation, args, result, now⟩)
  else none

/-- One observable step of an emission run: a listener callback (with its
position in the dispatched config list and the payload it received) or the
publish attempt handed to the broker client. -/
inductive EmitEvent where
  | callback (idx : Nat) (payload : Payload)
  | publish (topic : String) (event : MqttEventPayload)
deriving DecidableEq, Repr

/-- The trace contribution of one publish attempt: the publish step handed to
the broker client, or nothing when `publishToMqtt` returned without
publishing. -/
def publishPart (o : Option (String × MqttEventPayload)) : List EmitEvent :=
  match o with
  | some (t, ev) => [EmitEvent.publish t ev]
  | none => []

theorem publish_mem_publishPart (o : Option (String × MqttEventPayload)) (t : String)
    (ev : MqttEventPayload) : EmitEvent.publish t ev ∈ publishPart o ↔ o = some (t, ev) := by
  cases o with
  | none => simp [publishPart]
  | some pr =>
    obtain ⟨t', ev'⟩ := pr
    simp only [publishPart, List.mem_singleton, EmitEvent.publish.injEq, Option.some.injEq,
      Prod.mk.injEq]
    exact ⟨fun h => ⟨h.1.symm, h.2.symm⟩, fun h => ⟨h.1.symm, h.2.symm⟩⟩

theorem callback_not_mem_publishPart (o : Option (String × MqttEventPayload)) (k : Nat)
    (p : Payload) : EmitEvent.callback k p ∉ publishPart o := by
  cases o with
  | none => simp [publishPart]
  | some pr => obtain ⟨t', ev'⟩ := pr; simp [publishPart]

/-- `runListeners(model, args, result, operation, { local, remote })` from
src/runner.ts lines 12-35, as the trace of its observable steps in execution
order: when `local` it awaits `executeLocalListeners(camelizeIt(model), args,
result, "local")` to completion, and only then, when `remote`, it awaits
`publishToMqtt(model, args, result, operation)` (whose failure is caught and
logged).  `camelize` stands for `camelizeIt` from src/utils.ts, a file not
present in the tree; every theorem below holds for an arbitrary such
function. -/
def runListeners (camelize : String → String)
    (listeners : List (String × List ListenerConfig))
    (connected enabled : Bool) (root? : Option String) (now : String)
    (model : String) (args : Args) (result : Scalar) (operation : String)
    (localFlag remoteFlag : Bool) : List EmitEvent :=
  (if localFlag = true then
    ((executeLocalListeners listeners (camelize model) args result "local").invocations.map
      fun kp => EmitEvent.callback kp.1 kp.2)
  else []) ++
  (if remoteFlag = true then
    publishPart (publishToMqtt connected enabled root? now model args result operation)
  else [])

theorem string_segment_inj (p a b op : String)
    (h : p ++ "/" ++ a ++ "/" ++ op = p ++ "/" ++ b ++ "/" ++ op) : a = b := by
  have hd := congrArg String.data h
  simp only [String.data_append, List.append_assoc] at hd
  exact String.ext
    (List.append_cancel_right (List.append_cancel_left (List.append_cancel_left hd)))

/-- C6: for a write whose emission runs both local and remote, the trace of
`runListeners` is the completed local dispatch (every matching callback awaited
in turn) followed by the publish attempt — every callback step strictly precedes
every publish step — and the callbacks of one dispatch execute sequentially in
registration order (strictly increasing positions in the registered config
list). -/
theorem local_dispatch_precedes_publish (camelize : String → String)
    (listeners : List (String × List ListenerConfig)) (connected enabled : Bool)
    (root? : Option String) (now model : String) (args : Args) (result : Scalar)
    (operation : String) :
    (runListeners camelize listeners connected enabled root? now model args result operation
        true true
      = ((executeLocalListeners listeners (camelize model) args result "local").invocations.map
          fun kp => EmitEvent.callback kp.1 kp.2)
        ++ publishPart (publishToMqtt connected enabled root? now model args result operation))
  ∧ List.Pairwise (fun a b => a.1 < b.1)
      (executeLocalListeners listeners (camelize model) args result "local").invocations
  ∧ (∀ (i j k : Nat) (p : Payload) (t : String) (ev : MqttEventPayload),
      (runListeners camelize listeners connected enabled root? now model args result operation
        true true)[i]? = some (EmitEvent.callback k p) →
      (runListeners camelize listeners connected enabled root? now model args result operation
        true true)[j]? = some (EmitEvent.publish t ev) →
      i < j) := by
  refine ⟨by simp [runListeners], ?_, ?_⟩
  · rw [executeLocalListeners]
    rcases listeners.lookup (camelize model) with _ | cfgs
    · simp
    · exact execLoop_pairwise args (camelize model) result "local" cfgs 0
  · intro i j k p t ev hi hj
    set A := ((executeLocalListeners listeners (camelize model) args result
      "local").invocations.map fun kp => EmitEvent.callback kp.1 kp.2) with hA
    set B := publishPart (publishToMqtt connected enabled root? now model args result
      operation) with hB
    have htr : runListeners camelize listeners connected enabled root? now model args result
        operation true true = A ++ B := by simp [runListeners, hA, hB]
    rw [htr] at hi hj
    have hiA : i < A.length := by
      by_contra hlt
      rw [List.getElem?_append_right (by omega)] at hi
      have hmem := List.getElem?_mem hi
      rw [hB] at hmem
      exact callback_not_mem_publishPart _ k p hmem
    have hjB : A.length ≤ j := by
      by_contra hlt
      rw [List.getElem?_append] at hj
      rw [if_pos (by omega)] at hj
      have hmem := List.getElem?_mem hj
      rw [hA] at hmem
      simp at hmem
    omega

/-- Witness for C6: a single filterless listener, broker connected and enabled;
the trace is a callback at position 0 followed by the publish attempt at
position 1, and the theorem yields 0 < 1. -/
theorem local_dispatch_precedes_publish_witness : (0 : Nat) < 1 :=
  (local_dispatch_precedes_publish (fun s => s)
    [("user", [⟨none, none, false, false, false⟩])] true true none "t0" "user" ⟨[], []⟩
    (.str "r") "create").2.2 0 1 0
    ⟨⟨[], []⟩, "user", .str "r", some "local"⟩
    "prisma/events/user/create" ⟨"user", "create", ⟨[], []⟩, .str "r", "t0"⟩
    (by decide) (by decide)

theorem publishToMqtt_eq_some (connected enabled : Bool) (root? : Option String)
    (now model : String) (args : Args) (result : Scalar) (operation t : String)
    (ev : MqttEventPayload)
    (hpub : publishToMqtt connected enabled root? now model args result operation
      = some (t, ev)) :
    t = defaultTopicRoot root? ++ "/" ++ model ++ "/" ++ operation ∧
    ev = ⟨model, operation, args, result, now⟩ := by
  rw [publishToMqtt] at hpub
  split at hpub
  · simp only [Option.some.injEq, Prod.mk.injEq] at hpub
    exact ⟨hpub.1.symm, hpub.2.symm⟩
  · exact absurd hpub (by simp)

/-- C10: an emission run dispatches locally under the camelized model name while
the publish topic is built from the model name unchanged.  For any model name
altered by camelization: (1) every publish attempt in the trace carries the
topic `{root}/{model}/{operation}` — built from the uncamelized model — which
differs from the topic that the camelized registry key would produce, and the
envelope's `model` field is the uncamelized name; (2) the trace depends on the
registry only through its entry at the camelized key, so a listener registered
only under any other name is never invoked; (3) every callback in the trace is
of a config found in the registry entry at the camelized key. -/
theorem camelized_dispatch_key_vs_publish_topic (camelize : String → String)
    (listeners listeners' : List (String × List ListenerConfig)) (connected enabled : Bool)
    (root? : Option String) (now model : String) (args : Args) (result : Scalar)
    (operation : String) (localFlag remoteFlag : Bool)
    (h : camelize model ≠ model) :
    (∀ t ev, EmitEvent.publish t ev ∈ runListeners camelize listeners connected enabled root?
        now model args result operation localFlag remoteFlag →
      t = defaultTopicRoot root? ++ "/" ++ model ++ "/" ++ operation ∧
      t ≠ defaultTopicRoot root? ++ "/" ++ camelize model ++ "/" ++ operation ∧
      ev.model = model)
  ∧ (listeners'.lookup (camelize model) = listeners.lookup (camelize model) →
      runListeners camelize listeners' connected enabled root? now model args result operation
          localFlag remoteFlag
        = runListeners camelize listeners connected enabled root? now model args result
            operation localFlag remoteFlag)
  ∧ (∀ k p, EmitEvent.callback k p ∈ runListeners camelize listeners connected enabled root?
        now model args result operation localFlag remoteFlag →
      ∃ cfgs cfg, listeners.lookup (camelize model) = some cfgs ∧ cfgs[k]? = some cfg ∧
        matchesConfig cfg args = true) := by
  refine ⟨?_, ?_, ?_⟩
  · intro t ev hmem
    rw [runListeners] at hmem
    rcases List.mem_append.mp hmem with hA | hB
    · exfalso
      split at hA
      · simp only [List.mem_map] at hA
        obtain ⟨kp, _, heq⟩ := hA
        exact EmitEvent.noConfusion heq
      · simp at hA
    · split at hB
      · rw [publish_mem_publishPart] at hB
        obtain ⟨ht, hev⟩ := publishToMqtt_eq_some connected enabled root? now model args
          result operation t ev hB
        refine ⟨ht, ?_, by rw [hev]⟩
        rw [ht]
        intro hcontra
        exact h (string_segment_inj _ _ _ _ hcontra.symm)
      · simp at hB
  · intro hl
    rw [runListeners, runListeners, executeLocalListeners, executeLocalListeners, hl]
  · intro k p hmem
    rw [runListeners] at hmem
    rcases List.mem_append.mp hmem with hA | hB
    · split at hA
      · simp only [List.mem_map] at hA
        obtain ⟨kp, hkp, heq⟩ := hA
        obtain ⟨rfl, rfl⟩ : k = kp.1 ∧ p = kp.2 := by
          cases heq; exact ⟨rfl, rfl⟩
        rw [executeLocalListeners] at hkp
        rcases hlk : listeners.lookup (camelize model) with _ | cfgs
        · rw [hlk] at hkp; simp at hkp
        · rw [hlk] at hkp
          obtain ⟨i, cfg, hc, hi, _, hm, _⟩ := (execLoop_mem_invocations args (camelize model)
            result "local" cfgs 0 kp.1 kp.2).mp (by simpa using hkp)
          have hki : kp.1 = i := by omega
          exact ⟨cfgs, cfg, rfl, hki ▸ hc, hm⟩
      · simp at hA
    · exfalso
      split at hB
      · exact callback_not_mem_publishPart _ k p hB
      · simp at hB

/-- Witness for C10: `camelize` mapping `"User"` to `"user"`; the publish topic
is `prisma/events/User/create`, not `prisma/events/user/create`. -/
theorem camelized_dispatch_key_vs_publish_topic_witness :
    ("prisma/events/User/create"
        = defaultTopicRoot none ++ "/" ++ "User" ++ "/" ++ "create")
  ∧ ("prisma/events/User/create"
        ≠ defaultTopicRoot none ++ "/" ++ "user" ++ "/" ++ "create")
  ∧ (MqttEventPayload.model ⟨"User", "create", ⟨[], []⟩, .str "r", "t0"⟩ = "User") := by
  have h := (camelized_dispatch_key_vs_publish_topic (fun _ => "user") [] [] true true none
    "t0" "User" ⟨[], []⟩ (.str "r") "create" true true (by decide)).1
    "prisma/events/User/create" ⟨"User", "create", ⟨[], []⟩, .str "r", "t0"⟩ (by decide)
  exact h

/-- The value carried by the `emit` key of an operation's call arguments:
`emit: boolean` or `emit: { local?, remote? }` (src/types.ts `EmitConfig`). -/
inductive EmitV where
  | bool (b : Bool)
  | flags (localField remoteField : Option Bool)
deriving DecidableEq, Repr

/-- The record returned by `parseEmitConfig`. -/
structure EmitOpts where
  shouldEmit : Bool
  localFlag : Bool
  remoteFlag : Bool
deriving DecidableEq, Repr

/-- `parseEmitConfig(emit)` from src/extension.ts lines 9-23.  `none` models an
absent (`undefined`) emit value; JS `!emit` also catches the literal `false`,
for which the boolean branch would produce the identical all-false record, so
the two readings coincide.  In the object branch `emit.local || emit.remote`
under JS truthiness (with `undefined` falsy) is the disjunction below. -/
def parseEmitConfig : Option EmitV → EmitOpts
  | none => ⟨false, false, false⟩
  | some (.bool b) => ⟨b, b, b⟩
  | some (.flags l r) => ⟨(l.getD false) || (r.getD false), l.getD false, r.getD false⟩

/-- The call arguments of an intercepted operation: the optional `emit` key
(`none` = the key is absent from `args`) and the remaining, persisted
arguments. -/
structure OpArgs where
  emit : Option EmitV
  rest : Args
deriving DecidableEq, Repr

/-- One intercepted mutation method from src/extension.ts lines 60-121: the four
registered methods (`update`, `updateMany`, `create`, `upsert`) are textually
identical up to the operation name and the extension-level flag consulted
(`emitConfig.emitOnUpdate` etc.), so they are embedded once, parametrically in
`emitOn` and `operation`.  `query` is the underlying operation executor.  The
method returns the query result unchanged together with the emission trace it
triggered (empty when `runListeners` was not called). -/
def opHandler (emitOn : Bool) (query : OpArgs → Scalar) (camelize : String → String)
    (listeners : List (String × List ListenerConfig)) (connected enabled : Bool)
    (root? : Option String) (now model operation : String) (args : OpArgs) :
    Scalar × List EmitEvent :=
  if args.emit = none ∧ emitOn = false then (query args, [])
  else
    let emitOpts := parseEmitConfig args.emit
    let stripped : OpArgs := ⟨none, args.rest⟩
    let result := query stripped
    if emitOpts.shouldEmit = true then
      (result, runListeners camelize listeners connected enabled root? now model stripped.rest
        result operation emitOpts.localFlag emitOpts.remoteFlag)
    else (result, [])

/-- C9: an intercepted operation whose call arguments contain no `emit` key
performs no listener dispatch and no broker publish — even when the
extension-level option enabled emission for that operation kind — because
`parseEmitConfig(undefined)` has `shouldEmit = false`; the query result is
returned unchanged. -/
theorem absent_emit_key_no_emission (emitOn : Bool) (query : OpArgs → Scalar)
    (camelize : String → String) (listeners : List (String × List ListenerConfig))
    (connected enabled : Bool) (root? : Option String) (now model operation : String)
    (args : OpArgs) (h : args.emit = none) :
    opHandler emitOn query camelize listeners connected enabled root? now model operation args
      = (query args, []) := by
  obtain ⟨e, rest⟩ := args
  have he : e = none := h
  subst he
  cases emitOn <;> simp [opHandler, parseEmitConfig]

/-- Witness for C9: extension-level `emitOnUpdate = true`, a call without an
`emit` key; the handler returns the bare query result with an empty emission
trace. -/
theorem absent_emit_key_no_emission_witness :
    opHandler true (fun _ => .str "res") (fun s => s) [] true true none "t0" "User" "update"
      ⟨none, ⟨[], []⟩⟩ = (.str "res", []) :=
  absent_emit_key_no_emission true (fun _ => .str "res") (fun s => s) [] true true none "t0"
    "User" "update" ⟨none, ⟨[], []⟩⟩ rfl

/-- The `subscribers.forEach` loop of `handleMqttMessage` (src/mqtt.ts lines
257-265), carrying the position of the head subscriber: each config whose
filters match the event's args has its listener called as
`config.listener({ args, model, result })` — the payload carries no `source`
key — and a failure is caught and logged. -/
def remoteLoop (event : MqttEventPayload) : List ListenerConfig → Nat → DispatchOutcome
  | [], _ => ⟨[], []⟩
  | cfg :: rest, k =>
    let restOut := remoteLoop event rest (k + 1)
    if matchesConfig cfg event.args = true then
      { invocations := (k, ⟨event.args, event.model, event.result, none⟩)
          :: restOut.invocations,
        errors := if cfg.fails then k :: restOut.errors else restOut.errors }
    else restOut

/-- `handleMqttMessage(topic, message)` from src/mqtt.ts lines 245-269, after
JSON parsing (a malformed message is logged and dropped; the claims below are
about well-formed envelopes).  `mqttSubscriptions` is the subscriber table as
populated by `subscribeToMqttTopic`, keyed by the subscription topic strings
`{topicPrefix}/{model}/#`; the handler looks it up with the literal topic of
the received message (`mqttSubscriptions.get(topic)`) and returns doing nothing
when no entry or an empty set is found. -/
def handleMqttMessage (mqttSubscriptions : List (String × List ListenerConfig))
    (topic : String) (event : MqttEventPayload) : DispatchOutcome :=
  match mqttSubscriptions.lookup topic with
  | none => ⟨[], []⟩
  | some subscribers =>
    if subscribers.isEmpty then ⟨[], []⟩
    else remoteLoop event subscribers 0

/-- C1 (code evaluation at the failing input): after subscribing model `"user"`
(table key `prisma/events/user/#`, one filterless `allowRemote` listener), the
envelope published for a `create` on `"user"` travels on topic
`prisma/events/user/create`; the handler looks that literal topic up in the
wildcard-keyed table, finds nothing, and invokes zero listeners.  Even fed the
wildcard key itself, the invocation's payload has no `source` field (`none`),
not `"remote"`. -/
theorem handleMqttMessage_misses_topic_and_omits_source :
    (publishToMqtt true true none "t0" "user" ⟨[], []⟩ (.str "r1") "create"
      = some ("prisma/events/user/create", ⟨"user", "create", ⟨[], []⟩, .str "r1", "t0"⟩))
  ∧ (handleMqttMessage [("prisma/events/user/#", [⟨none, none, true, false, false⟩])]
      "prisma/events/user/create"
      ⟨"user", "create", ⟨[], []⟩, .str "r1", "t0"⟩).invocations = []
  ∧ (handleMqttMessage [("prisma/events/user/#", [⟨none, none, true, false, false⟩])]
      "prisma/events/user/#"
      ⟨"user", "create", ⟨[], []⟩, .str "r1", "t0"⟩).invocations
      = [(0, ⟨⟨[], []⟩, "user", .str "r1", none⟩)] := by
  refine ⟨by decide, by decide, by decide⟩

/-- C2 (code evaluation at the failing input): the publisher's entire effect is
the five-field envelope and topic below — no event identifier exists in the
envelope type and nothing is recorded before publishing — and the handler,
a pure function with no deduplication state, invokes zero listeners for the
looped-back message only because the exact-topic lookup misses the
wildcard-keyed table; fed the stored subscription key it (re)invokes the
matching listener for the process's own event. -/
theorem publish_loopback_not_deduplicated :
    (publishToMqtt true true none "t1" "order" ⟨[], []⟩ (.str "o1") "create"
      = some ("prisma/events/order/create", ⟨"order", "create", ⟨[], []⟩, .str "o1", "t1"⟩))
  ∧ (handleMqttMessage [("prisma/events/order/#", [⟨none, none, true, false, false⟩])]
      "prisma/events/order/create"
      ⟨"order", "create", ⟨[], []⟩, .str "o1", "t1"⟩).invocations = []
  ∧ (handleMqttMessage [("prisma/events/order/#", [⟨none, none, true, false, false⟩])]
      "prisma/events/order/#"
      ⟨"order", "create", ⟨[], []⟩, .str "o1", "t1"⟩).invocations.length = 1 := by
  refine ⟨by decide, by decide, by decide⟩

/-- A broker-level command issued through the subscriber client. -/
inductive BrokerCmd where
  | sub (topic : String)
  | unsub (topic : String)
deriving DecidableEq, Repr

/-- JS `Map.get` on the subscription table. -/
def mapGet (m : List (String × List Nat)) (k : String) : Option (List Nat) :=
  m.lookup k

/-- JS `Map.set`: overwrite the entry in place, or append a new one. -/
def mapSet : List (String × List Nat) → String → List Nat → List (String × List Nat)
  | [], k, v => [(k, v)]
  | (k', v') :: rest, k, v =>
    if k' = k then (k, v) :: rest else (k', v') :: mapSet rest k v

/-- JS `Map.delete`. -/
def mapDelete (m : List (String × List Nat)) (k : String) : List (String × List Nat) :=
  m.filter fun p => p.1 != k

/-- JS `Set.add` on a set of listener-config identities kept in insertion
order: a no-op when the identity is already present. -/
def setAdd (l : List Nat) (c : Nat) : List Nat :=
  if c ∈ l then l else l ++ [c]

theorem mapGet_cons_self (k0 : String) (v0 : List Nat) (rest : List (String × List Nat)) :
    mapGet ((k0, v0) :: rest) k0 = some v0 := by
  simp [mapGet, List.lookup_cons]

theorem mapGet_cons_ne (k0 k' : String) (v0 : List Nat) (rest : List (String × List Nat))
    (h : k' ≠ k0) : mapGet ((k0, v0) :: rest) k' = mapGet rest k' := by
  rw [mapGet, List.lookup_cons, beq_false_of_ne h]
  rfl

theorem mapGet_mapSet_self (m : List (String × List Nat)) (k : String) (v : List Nat) :
    mapGet (mapSet m k v) k = some v := by
  induction m with
  | nil => exact mapGet_cons_self k v []
  | cons hd rest ih =>
    obtain ⟨k0, v0⟩ := hd
    by_cases h : k0 = k
    · rw [mapSet, if_pos h]
      exact mapGet_cons_self k v rest
    · rw [mapSet, if_neg h, mapGet_cons_ne k0 k v0 _ (Ne.symm h)]
      exact ih

theorem mapGet_mapSet_ne (m : List (String × List Nat)) (k k' : String) (v : List Nat)
    (h : k' ≠ k) : mapGet (mapSet m k v) k' = mapGet m k' := by
  induction m with
  | nil => simp [mapSet, mapGet_cons_ne k k' v [] h, mapGet, h]
  | cons hd rest ih =>
    obtain ⟨k0, v0⟩ := hd
    by_cases h0 : k0 = k
    · subst h0
      rw [mapSet, if_pos rfl, mapGet_cons_ne k0 k' v rest h, mapGet_cons_ne k0 k' v0 rest h]
    · rw [mapSet, if_neg h0]
      by_cases h1 : k' = k0
      · subst h1
        rw [mapGet_cons_self, mapGet_cons_self]
      · rw [mapGet_cons_ne k0 k' v0 _ h1, mapGet_cons_ne k0 k' v0 _ h1]
        exact ih

theorem mapGet_mapDelete_self (m : List (String × List Nat)) (k : String) :
    mapGet (mapDelete m k) k = none := by
  induction m with
  | nil => simp [mapGet, mapDelete]
  | cons hd rest ih =>
    obtain ⟨k0, v0⟩ := hd
    by_cases h0 : k0 = k
    · subst h0
      rw [mapDelete, List.filter_cons, if_neg (by simp)]
      exact ih
    · rw [mapDelete, List.filter_cons, if_pos (by simpa [bne_iff_ne] using h0),
        mapGet_cons_ne k0 k v0 _ (Ne.symm h0)]
      exact ih

theorem mapGet_mapDelete_ne (m : List (String × List Nat)) (k k' : String) (h : k' ≠ k) :
    mapGet (mapDelete m k) k' = mapGet m k' := by
  induction m with
  | nil => simp [mapGet, mapDelete]
  | cons hd rest ih =>
    obtain ⟨k0, v0⟩ := hd
    by_cases h0 : k0 = k
    · subst h0
      rw [mapDelete, List.filter_cons, if_neg (by simp), mapGet_cons_ne k0 k' v0 rest h]
      exact ih
    · rw [mapDelete, List.filter_cons, if_pos (by simpa [bne_iff_ne] using h0)]
      by_cases h1 : k' = k0
      · subst h1
        rw [mapGet_cons_self, mapGet_cons_self]
      · rw [mapGet_cons_ne k0 k' v0 _ h1, mapGet_cons_ne k0 k' v0 rest h1]
        exact ih

/-- The subscription topic for a model: `{topicPrefix}/{model}/#`
(src/mqtt.ts line 292). -/
def topicFor (root? : Option String) (model : String) : String :=
  defaultTopicRoot root? ++ "/" ++ model ++ "/#"

theorem topicFor_inj (root? : Option String) (m m' : String)
    (h : topicFor root? m = topicFor root? m') : m = m' := by
  rw [topicFor, topicFor] at h
  have hd := congrArg String.data h
  simp only [String.data_append, List.append_assoc] at hd
  exact String.ext
    (List.append_cancel_right (List.append_cancel_left (List.append_cancel_left hd)))

/-- The module-level state of src/mqtt.ts relevant to the subscription
lifecycle: whether a broker configuration with `enabled: true` was supplied
(the subscriber client is then taken to initialize successfully — its failure
path is environment-specific), the configured topic prefix, the
`mqttSubscriptions` table mapping a subscription topic to the `Set` of
listener-config identities interested in it, and the trace of broker-level
subscribe / unsubscribe commands issued so far. -/
structure MqttState where
  enabled : Bool
  root? : Option String
  subs : List (String × List Nat)
  trace : List BrokerCmd
deriving DecidableEq, Repr

/-- `subscribeToMqttTopic(model, config)` from src/mqtt.ts lines 274-309: warn
and return when no enabled broker config exists; otherwise, on first interest
in the topic, store an empty set under it and issue the broker-level subscribe;
finally add the config (by identity) to the topic's set. -/
def subscribeToMqttTopic (st : MqttState) (model : String) (c : Nat) : MqttState :=
  if st.enabled = false then st
  else
    let topic := topicFor st.root? model
    let st1 := if (mapGet st.subs topic).isSome then st
      else { st with subs := mapSet st.subs topic [],
                     trace := st.trace ++ [BrokerCmd.sub topic] }
    { st1 with subs := mapSet st1.subs topic (setAdd ((mapGet st1.subs topic).getD []) c) }

/-- `unsubscribeFromMqttTopic(model, config)` from src/mqtt.ts lines 314-341:
return when no enabled broker config / subscriber exists; otherwise delete the
config from the topic's set and, when the set became empty, issue the
broker-level unsubscribe and delete the table entry. -/
def unsubscribeFromMqttTopic (st : MqttState) (model : String) (c : Nat) : MqttState :=
  if st.enabled = false then st
  else
    let topic := topicFor st.root? model
    match mapGet st.subs topic with
    | none => st
    | some subscribers =>
      let remaining := subscribers.filter fun l => l != c
      if remaining.isEmpty then
        { st with subs := mapDelete st.subs topic,
                  trace := st.trace ++ [BrokerCmd.unsub topic] }
      else { st with subs := mapSet st.subs topic remaining }

/-- Process-wide state: the listener registry of src/listeners.ts (model name →
array of listener-config identities in registration order; `!==` on configs is
equality of identities) together with the mqtt module state. -/
structure EmitterState where
  reg : String → List Nat
  mqtt : MqttState

/-- The state of a freshly configured process: empty registry, empty
subscription table, no broker commands issued. -/
def initialState (enabled : Bool) (root? : Option String) : EmitterState :=
  ⟨fun _ => [], ⟨enabled, root?, [], []⟩⟩

/-- `prismaEventListener(model, config)` from src/event-listener.ts lines 9-23:
push the config onto the model's registry array, then, when
`config.allowRemote`, request an MQTT subscription.  `allowRemote c` reads the
flag of the config with identity `c` (an object's identity determines its
fields). -/
def prismaEventListener (allowRemote : Nat → Bool) (st : EmitterState) (model : String)
    (c : Nat) : EmitterState :=
  let st1 : EmitterState :=
    { st with reg := fun m => if m = model then st.reg m ++ [c] else st.reg m }
  if allowRemote c then { st1 with mqtt := subscribeToMqttTopic st1.mqtt model c } else st1

/-- The unregister closure returned by `prismaEventListener`
(src/event-listener.ts lines 25-33): `listeners[model] =
listeners[model].filter(l => l !== config)` — strict reference inequality —
then, when `config.allowRemote`, release the MQTT subscription. -/
def unregisterListener (allowRemote : Nat → Bool) (st : EmitterState) (model : String)
    (c : Nat) : EmitterState :=
  let st1 : EmitterState :=
    { st with reg := fun m => if m = model then (st.reg m).filter (fun l => l != c)
                              else st.reg m }
  if allowRemote c then { st1 with mqtt := unsubscribeFromMqttTopic st1.mqtt model c } else st1

theorem prismaEventListener_reg (a : Nat → Bool) (st : EmitterState) (model : String)
    (c : Nat) : (prismaEventListener a st model c).reg
      = fun m => if m = model then st.reg m ++ [c] else st.reg m := by
  by_cases h : a c <;> simp [prismaEventListener, h]

theorem prismaEventListener_mqtt (a : Nat → Bool) (st : EmitterState) (model : String)
    (c : Nat) : (prismaEventListener a st model c).mqtt
      = if a c then subscribeToMqttTopic st.mqtt model c else st.mqtt := by
  by_cases h : a c <;> simp [prismaEventListener, h]

theorem unregisterListener_reg (a : Nat → Bool) (st : EmitterState) (model : String)
    (c : Nat) : (unregisterListener a st model c).reg
      = fun m => if m = model then (st.reg m).filter (fun l => l != c) else st.reg m := by
  by_cases h : a c <;> simp [unregisterListener, h]

theorem unregisterListener_mqtt (a : Nat → Bool) (st : EmitterState) (model : String)
    (c : Nat) : (unregisterListener a st model c).mqtt
      = if a c then unsubscribeFromMqttTopic st.mqtt model c else st.mqtt := by
  by_cases h : a c <;> simp [unregisterListener, h]

/-- C4 counterexample: registering the *same* config object instance twice and
invoking one of the returned unregister functions removes BOTH registry entries
— `filter(l => l !== config)` drops every occurrence of that identity — so it is
false that exactly one registered entry is removed and the other remains. -/
theorem unregister_same_instance_removes_both :
    ((prismaEventListener (fun _ => false)
        (prismaEventListener (fun _ => false) (initialState false none) "user" 0)
        "user" 0).reg "user" = [0, 0])
  ∧ ((unregisterListener (fun _ => false)
        (prismaEventListener (fun _ => false)
          (prismaEventListener (fun _ => false) (initialState false none) "user" 0)
          "user" 0) "user" 0).reg "user" = [])
  ∧ ¬(((unregisterListener (fun _ => false)
        (prismaEventListener (fun _ => false)
          (prismaEventListener (fun _ => false) (initialState false none) "user" 0)
          "user" 0) "user" 0).reg "user").length = 1) := by
  refine ⟨by decide, by decide, by decide⟩

/-- C4 amended: the unregister function removes, by object identity (never by
value equality), *every* occurrence of its config instance from that model's
registry array — order of the survivors preserved, other models untouched.
Hence after registering two distinct config instances (structurally identical
or not — identity is independent of field values), invoking one instance's
unregister removes exactly that one and the other remains; but registering the
same instance twice and unregistering once removes both occurrences. -/
theorem unregister_removes_every_occurrence_by_identity (allowRemote : Nat → Bool)
    (st : EmitterState) (model m : String) (c : Nat) :
    ((unregisterListener allowRemote st model c).reg model
      = (st.reg model).filter (fun l => l != c))
  ∧ (m ≠ model → (unregisterListener allowRemote st model c).reg m = st.reg m)
  ∧ (∀ c1 c2 : Nat, c1 ≠ c2 → ∀ (enabled : Bool) (root? : Option String),
      (unregisterListener allowRemote
        (prismaEventListener allowRemote
          (prismaEventListener allowRemote (initialState enabled root?) model c1)
          model c2) model c1).reg model = [c2]) := by
  refine ⟨?_, ?_, ?_⟩
  · rw [unregisterListener_reg]
    simp
  · intro hm
    rw [unregisterListener_reg]
    simp [hm]
  · intro c1 c2 h12 enabled root?
    rw [unregisterListener_reg, prismaEventListener_reg, prismaEventListener_reg]
    simp [initialState, List.filter_cons, bne_iff_ne, Ne.symm h12]

/-- Witness for C4's amended theorem: from a registry holding identities 5 and 7
under `"user"`, unregistering 5 leaves `[7]`, leaves `"post"` untouched, and the
two-distinct-instances scenario leaves exactly the other instance. -/
theorem unregister_removes_every_occurrence_by_identity_witness :
    ((unregisterListener (fun _ => true)
        ⟨fun _ => [5, 7], ⟨true, none, [], []⟩⟩ "user" 5).reg "user" = [7])
  ∧ ((unregisterListener (fun _ => true)
        ⟨fun _ => [5, 7], ⟨true, none, [], []⟩⟩ "user" 5).reg "post" = [5, 7])
  ∧ ((unregisterListener (fun _ => true)
        (prismaEventListener (fun _ => true)
          (prismaEventListener (fun _ => true) (initialState true none) "user" 1)
          "user" 2) "user" 1).reg "user" = [2]) := by
  have h := unregister_removes_every_occurrence_by_identity (fun _ => true)
    ⟨fun _ => [5, 7], ⟨true, none, [], []⟩⟩ "user" "post" 5
  exact ⟨h.1.trans (by decide), h.2.1 (by decide), h.2.2 1 2 (by decide) true none⟩

/-- A listener-lifecycle event: a call to `prismaEventListener` or an invocation
of the unregister function it returned, for the config with the given
identity. -/
inductive RegOp where
  | register (model : String) (c : Nat)
  | unregister (model : String) (c : Nat)

def applyOp (a : Nat → Bool) (st : EmitterState) : RegOp → EmitterState
  | .register model c => prismaEventListener a st model c
  | .unregister model c => unregisterListener a st model c

def runOps (a : Nat → Bool) (st : EmitterState) : List RegOp → EmitterState
  | [] => st
  | op :: ops => runOps a (applyOp a st op) ops

theorem mem_setAdd (l : List Nat) (c i : Nat) : i ∈ setAdd l c ↔ i ∈ l ∨ i = c := by
  by_cases h : c ∈ l
  · rw [setAdd, if_pos h]
    exact ⟨fun hi => Or.inl hi, fun hi => hi.elim id fun he => he ▸ h⟩
  · rw [setAdd, if_neg h]
    simp

theorem subscribeToMqttTopic_enabled (st : MqttState) (model : String) (c : Nat) :
    (subscribeToMqttTopic st model c).enabled = st.enabled := by
  by_cases h : st.enabled = false <;>
    by_cases h2 : (mapGet st.subs (topicFor st.root? model)).isSome <;>
    simp [subscribeToMqttTopic, h, h2]

theorem subscribeToMqttTopic_root (st : MqttState) (model : String) (c : Nat) :
    (subscribeToMqttTopic st model c).root? = st.root? := by
  by_cases h : st.enabled = false <;>
    by_cases h2 : (mapGet st.subs (topicFor st.root? model)).isSome <;>
    simp [subscribeToMqttTopic, h, h2]

theorem unsubscribeFromMqttTopic_enabled (st : MqttState) (model : String) (c : Nat) :
    (unsubscribeFromMqttTopic st model c).enabled = st.enabled := by
  by_cases h : st.enabled = false
  · simp [unsubscribeFromMqttTopic, h]
  · cases h2 : mapGet st.subs (topicFor st.root? model) with
    | none => simp [unsubscribeFromMqttTopic, h, h2]
    | some s =>
      by_cases h3 : (s.filter (fun l => l != c)).isEmpty <;>
        simp [unsubscribeFromMqttTopic, h, h2, h3]

theorem unsubscribeFromMqttTopic_root (st : MqttState) (model : String) (c : Nat) :
    (unsubscribeFromMqttTopic st model c).root? = st.root? := by
  by_cases h : st.enabled = false
  · simp [unsubscribeFromMqttTopic, h]
  · cases h2 : mapGet st.subs (topicFor st.root? model) with
    | none => simp [unsubscribeFromMqttTopic, h, h2]
    | some s =>
      by_cases h3 : (s.filter (fun l => l != c)).isEmpty <;>
        simp [unsubscribeFromMqttTopic, h, h2, h3]

theorem subscribe_mapGet_self (st : MqttState) (model : String) (c : Nat)
    (hen : st.enabled = true) :
    mapGet (subscribeToMqttTopic st model c).subs (topicFor st.root? model)
      = some (setAdd ((mapGet st.subs (topicFor st.root? model)).getD []) c) := by
  have hne : ¬st.enabled = false := by simp [hen]
  by_cases h2 : (mapGet st.subs (topicFor st.root? model)).isSome
  · simp only [subscribeToMqttTopic, if_neg hne, if_pos h2]
    exact mapGet_mapSet_self _ _ _
  · have h2n : mapGet st.subs (topicFor st.root? model) = none :=
      Option.not_isSome_iff_eq_none.mp h2
    simp only [subscribeToMqttTopic, if_neg hne, if_neg h2]
    rw [mapGet_mapSet_self, mapGet_mapSet_self, h2n]
    simp

theorem subscribe_mapGet_ne (st : MqttState) (model : String) (c : Nat) (k : String)
    (hk : k ≠ topicFor st.root? model) :
    mapGet (subscribeToMqttTopic st model c).subs k = mapGet st.subs k := by
  by_cases h : st.enabled = false
  · simp [subscribeToMqttTopic, h]
  · by_cases h2 : (mapGet st.subs (topicFor st.root? model)).isSome
    · simp only [subscribeToMqttTopic, if_neg h, if_pos h2]
      exact mapGet_mapSet_ne _ _ _ _ hk
    · simp only [subscribeToMqttTopic, if_neg h, if_neg h2]
      rw [mapGet_mapSet_ne _ _ _ _ hk, mapGet_mapSet_ne _ _ _ _ hk]

theorem subscribe_trace_of_isSome (st : MqttState) (model : String) (c : Nat)
    (h2 : (mapGet st.subs (topicFor st.root? model)).isSome = true) :
    (subscribeToMqttTopic st model c).trace = st.trace := by
  by_cases h : st.enabled = false <;> simp [subscribeToMqttTopic, h, h2]

theorem subscribe_trace_of_none (st : MqttState) (model : String) (c : Nat)
    (hen : st.enabled = true)
    (h2 : mapGet st.subs (topicFor st.root? model) = none) :
    (subscribeToMqttTopic st model c).trace
      = st.trace ++ [BrokerCmd.sub (topicFor st.root? model)] := by
  simp [subscribeToMqttTopic, hen, h2]

theorem unsubscribe_mapGet_self_none (st : MqttState) (model : String) (c : Nat)
    (hen : st.enabled = true)
    (h2 : mapGet st.subs (topicFor st.root? model) = none) :
    mapGet (unsubscribeFromMqttTopic st model c).subs (topicFor st.root? model) = none := by
  simp [unsubscribeFromMqttTopic, hen, h2]

theorem unsubscribe_mapGet_self_some (st : MqttState) (model : String) (c : Nat)
    (s : List Nat) (hen : st.enabled = true)
    (h2 : mapGet st.subs (topicFor st.root? model) = some s) :
    mapGet (unsubscribeFromMqttTopic st model c).subs (topicFor st.root? model)
      = if (s.filter (fun l => l != c)).isEmpty = true then none
        else some (s.filter (fun l => l != c)) := by
  by_cases h3 : (s.filter (fun l => l != c)).isEmpty = true
  · simp [unsubscribeFromMqttTopic, hen, h2, h3, mapGet_mapDelete_self]
  · simp [unsubscribeFromMqttTopic, hen, h2, h3, mapGet_mapSet_self]

theorem unsubscribe_mapGet_ne (st : MqttState) (model : String) (c : Nat) (k : String)
    (hk : k ≠ topicFor st.root? model) :
    mapGet (unsubscribeFromMqttTopic st model c).subs k = mapGet st.subs k := by
  by_cases h : st.enabled = false
  · simp [unsubscribeFromMqttTopic, h]
  · cases h2 : mapGet st.subs (topicFor st.root? model) with
    | none => simp [unsubscribeFromMqttTopic, h, h2]
    | some s =>
      by_cases h3 : (s.filter (fun l => l != c)).isEmpty
      · simp [unsubscribeFromMqttTopic, h, h2, h3, mapGet_mapDelete_ne _ _ _ hk]
      · simp [unsubscribeFromMqttTopic, h, h2, h3, mapGet_mapSet_ne _ _ _ _ hk]

/-- The reference-counting invariant of the subscription table, relative to the
registry: a process with an enabled broker config has, for every model, a table
entry for the model's topic exactly when some `allowRemote` listener for the
model is registered, and the set under that entry holds exactly the identities
of the registered `allowRemote` listeners. -/
def SubsInv (a : Nat → Bool) (st : EmitterState) : Prop :=
  st.mqtt.enabled = true ∧
  ∀ model : String,
    (∀ i : Nat, i ∈ (mapGet st.mqtt.subs (topicFor st.mqtt.root? model)).getD []
      ↔ (i ∈ st.reg model ∧ a i = true))
    ∧ ((mapGet st.mqtt.subs (topicFor st.mqtt.root? model)).isSome = true
      ↔ ∃ i, i ∈ st.reg model ∧ a i = true)

theorem subsInv_initial (a : Nat → Bool) (root? : Option String) :
    SubsInv a (initialState true root?) := by
  refine ⟨rfl, fun model => ⟨fun i => ?_, ?_⟩⟩
  · simp [initialState, mapGet]
  · simp [initialState, mapGet]

theorem subsInv_register (a : Nat → Bool) (st : EmitterState) (model : String) (c : Nat)
    (h : SubsInv a st) : SubsInv a (prismaEventListener a st model c) := by
  obtain ⟨hen, hinv⟩ := h
  rw [SubsInv, prismaEventListener_reg, prismaEventListener_mqtt]
  by_cases hac : a c = true
  · rw [if_pos hac]
    refine ⟨by rw [subscribeToMqttTopic_enabled]; exact hen, fun model' => ?_⟩
    rw [subscribeToMqttTopic_root]
    by_cases hm : model' = model
    · subst hm
      rw [subscribe_mapGet_self st.mqtt model' c hen]
      obtain ⟨hmem, _⟩ := hinv model'
      refine ⟨fun i => ?_, ?_⟩
      · simp only [Option.getD_some, mem_setAdd, hmem i, if_pos rfl]
        constructor
        · rintro (⟨hi, hai⟩ | rfl)
          · exact ⟨List.mem_append_left _ hi, hai⟩
          · exact ⟨List.mem_append_right _ (List.mem_singleton.mpr rfl), hac⟩
        · rintro ⟨hi, hai⟩
          rcases List.mem_append.mp hi with hi | hi
          · exact Or.inl ⟨hi, hai⟩
          · exact Or.inr (List.mem_singleton.mp hi)
      · simp only [Option.isSome_some, if_pos rfl]
        exact iff_of_true (by simp)
          ⟨c, List.mem_append_right _ (List.mem_singleton.mpr rfl), hac⟩
    · have hk : topicFor st.mqtt.root? model' ≠ topicFor st.mqtt.root? model :=
        fun he => hm (topicFor_inj _ _ _ he)
      rw [subscribe_mapGet_ne st.mqtt model c _ hk]
      simpa [hm] using hinv model'
  · rw [if_neg hac]
    refine ⟨hen, fun model' => ?_⟩
    by_cases hm : model' = model
    · subst hm
      obtain ⟨hmem, hsome⟩ := hinv model'
      refine ⟨fun i => ?_, ?_⟩
      · rw [hmem i]
        simp only [if_pos rfl]
        constructor
        · rintro ⟨hi, hai⟩
          exact ⟨List.mem_append_left _ hi, hai⟩
        · rintro ⟨hi, hai⟩
          rcases List.mem_append.mp hi with hi | hi
          · exact ⟨hi, hai⟩
          · exact absurd (List.mem_singleton.mp hi ▸ hai) hac
      · rw [hsome]
        simp only [if_pos rfl]
        constructor
        · rintro ⟨i, hi, hai⟩
          exact ⟨i, List.mem_append_left _ hi, hai⟩
        · rintro ⟨i, hi, hai⟩
          rcases List.mem_append.mp hi with hi | hi
          · exact ⟨i, hi, hai⟩
          · exact absurd (List.mem_singleton.mp hi ▸ hai) hac
    · simpa [hm] using hinv model'

theorem subsInv_unregister (a : Nat → Bool) (st : EmitterState) (model : String) (c : Nat)
    (h : SubsInv a st) : SubsInv a (unregisterListener a st model c) := by
  obtain ⟨hen, hinv⟩ := h
  rw [SubsInv, unregisterListener_reg, unregisterListener_mqtt]
  by_cases hac : a c = true
  · rw [if_pos hac]
    refine ⟨by rw [unsubscribeFromMqttTopic_enabled]; exact hen, fun model' => ?_⟩
    rw [unsubscribeFromMqttTopic_root]
    by_cases hm : model' = model
    · subst hm
      obtain ⟨hmem, hsome⟩ := hinv model'
      cases h2 : mapGet st.mqtt.subs (topicFor st.mqtt.root? model') with
      | none =>
        rw [unsubscribe_mapGet_self_none st.mqtt model' c hen h2]
        have hno : ¬∃ i, i ∈ st.reg model' ∧ a i = true := by
          rw [← hsome, h2]
          simp
        refine ⟨fun i => ?_, ?_⟩
        · simp only [Option.getD_none, List.not_mem_nil, false_iff, if_pos rfl]
          rintro ⟨hi, hai⟩
          exact hno ⟨i, (List.mem_filter.mp hi).1, hai⟩
        · simp only [Option.isSome_none, if_pos rfl]
          refine iff_of_false (by simp) ?_
          rintro ⟨i, hi, hai⟩
          exact hno ⟨i, (List.mem_filter.mp hi).1, hai⟩
      | some s =>
        rw [unsubscribe_mapGet_self_some st.mqtt model' c s hen h2]
        have hmem' : ∀ i, i ∈ s ↔ (i ∈ st.reg model' ∧ a i = true) := by
          intro i
          have := hmem i
          rw [h2] at this
          simpa using this
        by_cases h3 : (s.filter (fun l => l != c)).isEmpty = true
        · rw [if_pos h3]
          have hfil : s.filter (fun l => l != c) = [] := List.isEmpty_iff.mp h3
          refine ⟨fun i => ?_, ?_⟩
          · simp only [Option.getD_none, List.not_mem_nil, false_iff, if_pos rfl]
            rintro ⟨hi, hai⟩
            obtain ⟨hir, hic⟩ := List.mem_filter.mp hi
            have : i ∈ s.filter (fun l => l != c) :=
              List.mem_filter.mpr ⟨(hmem' i).mpr ⟨hir, hai⟩, hic⟩
            rw [hfil] at this
            exact absurd this (List.not_mem_nil i)
          · simp only [Option.isSome_none, if_pos rfl]
            refine iff_of_false (by simp) ?_
            rintro ⟨i, hi, hai⟩
            obtain ⟨hir, hic⟩ := List.mem_filter.mp hi
            have : i ∈ s.filter (fun l => l != c) :=
              List.mem_filter.mpr ⟨(hmem' i).mpr ⟨hir, hai⟩, hic⟩
            rw [hfil] at this
            exact absurd this (List.not_mem_nil i)
        · rw [if_neg h3]
          refine ⟨fun i => ?_, ?_⟩
          · simp only [Option.getD_some, List.mem_filter, if_pos rfl]
            rw [hmem' i]
            constructor
            · rintro ⟨⟨hir, hai⟩, hic⟩
              exact ⟨List.mem_filter.mpr ⟨hir, hic⟩, hai⟩
            · rintro ⟨hi, hai⟩
              obtain ⟨hir, hic⟩ := List.mem_filter.mp hi
              exact ⟨⟨hir, hai⟩, hic⟩
          · simp only [Option.isSome_some, if_pos rfl]
            refine iff_of_true (by simp) ?_
            have hne : s.filter (fun l => l != c) ≠ [] := by
              intro hcon
              rw [hcon] at h3
              exact h3 rfl
            obtain ⟨j, hj⟩ := List.exists_mem_of_ne_nil _ hne
            obtain ⟨hjs, hjc⟩ := List.mem_filter.mp hj
            obtain ⟨hjr, hja⟩ := (hmem' j).mp hjs
            exact ⟨j, List.mem_filter.mpr ⟨hjr, hjc⟩, hja⟩
    · have hk : topicFor st.mqtt.root? model' ≠ topicFor st.mqtt.root? model :=
        fun he => hm (topicFor_inj _ _ _ he)
      rw [unsubscribe_mapGet_ne st.mqtt model c _ hk]
      simpa [hm] using hinv model'
  · rw [if_neg hac]
    refine ⟨hen, fun model' => ?_⟩
    by_cases hm : model' = model
    · subst hm
      obtain ⟨hmem, hsome⟩ := hinv model'
      refine ⟨fun i => ?_, ?_⟩
      · rw [hmem i]
        simp only [eq_self_iff_true, if_true, List.mem_filter]
        constructor
        · rintro ⟨hi, hai⟩
          refine ⟨⟨hi, ?_⟩, hai⟩
          rw [bne_iff_ne]
          rintro rfl
          exact hac hai
        · rintro ⟨⟨hi, _⟩, hai⟩
          exact ⟨hi, hai⟩
      · rw [hsome]
        simp only [eq_self_iff_true, if_true, List.mem_filter]
        constructor
        · rintro ⟨i, hi, hai⟩
          refine ⟨i, ⟨hi, ?_⟩, hai⟩
          rw [bne_iff_ne]
          rintro rfl
          exact hac hai
        · rintro ⟨i, ⟨hi, _⟩, hai⟩
          exact ⟨i, hi, hai⟩
    · simpa [hm] using hinv model'

theorem subsInv_applyOp (a : Nat → Bool) (st : EmitterState) (op : RegOp)
    (h : SubsInv a st) : SubsInv a (applyOp a st op) := by
  cases op with
  | register model c => exact subsInv_register a st model c h
  | unregister model c => exact subsInv_unregister a st model c h

theorem subsInv_runOps (a : Nat → Bool) (st : EmitterState) (ops : List RegOp)
    (h : SubsInv a st) : SubsInv a (runOps a st ops) := by
  induction ops generalizing st with
  | nil => exact h
  | cons op ops ih => exact ih _ (subsInv_applyOp a st op h)

theorem applyOp_root (a : Nat → Bool) (st : EmitterState) (op : RegOp) :
    (applyOp a st op).mqtt.root? = st.mqtt.root? := by
  cases op with
  | register model c =>
    rw [applyOp, prismaEventListener_mqtt]
    by_cases hac : a c = true
    · rw [if_pos hac, subscribeToMqttTopic_root]
    · rw [if_neg hac]
  | unregister model c =>
    rw [applyOp, unregisterListener_mqtt]
    by_cases hac : a c = true
    · rw [if_pos hac, unsubscribeFromMqttTopic_root]
    · rw [if_neg hac]

theorem runOps_root (a : Nat → Bool) (st : EmitterState) (ops : List RegOp) :
    (runOps a st ops).mqtt.root? = st.mqtt.root? := by
  induction ops generalizing st with
  | nil => rfl
  | cons op ops ih => exact (ih _).trans (applyOp_root a st op)

theorem runOps_registers_trace (a : Nat → Bool) (model : String) :
    ∀ (ids : List Nat) (st : EmitterState), (∀ i ∈ ids, a i = true) →
      st.mqtt.enabled = true →
      (mapGet st.mqtt.subs (topicFor st.mqtt.root? model)).isSome = true →
      (runOps a st (ids.map (RegOp.register model))).mqtt.trace = st.mqtt.trace := by
  intro ids
  induction ids with
  | nil => intro st _ _ _; rfl
  | cons i rest ih =>
    intro st hall hen hsome
    simp only [List.map_cons, runOps]
    have hai : a i = true := hall i (List.mem_cons_self i rest)
    have hmq : (applyOp a st (RegOp.register model i)).mqtt
        = subscribeToMqttTopic st.mqtt model i := by
      rw [applyOp, prismaEventListener_mqtt, if_pos hai]
    have hen' : (applyOp a st (RegOp.register model i)).mqtt.enabled = true := by
      rw [hmq, subscribeToMqttTopic_enabled]; exact hen
    have hsome' : (mapGet (applyOp a st (RegOp.register model i)).mqtt.subs
        (topicFor (applyOp a st (RegOp.register model i)).mqtt.root? model)).isSome
          = true := by
      rw [hmq, subscribeToMqttTopic_root, subscribe_mapGet_self st.mqtt model i hen]
      rfl
    have htr' : (applyOp a st (RegOp.register model i)).mqtt.trace = st.mqtt.trace := by
      rw [hmq]
      exact subscribe_trace_of_isSome st.mqtt model i hsome
    rw [ih _ (fun j hj => hall j (List.mem_cons_of_mem i hj)) hen' hsome']
    exact htr'

/-- C3: reference-counted topic subscriptions.  (1) After any sequence of
listener registrations and unregistrations in a process with an enabled broker
config, the subscription table holds an entry for a model's topic exactly when
at least one `allowRemote` listener for that model is currently registered.
(2) Registering any non-empty list of `allowRemote` listeners for one model
issues exactly one broker-level subscribe command.  (3) Releasing a listener
while another identity remains in the topic's set keeps the entry and issues no
broker command.  (4) Releasing the last one deletes the entry and issues the
broker-level unsubscribe. -/
theorem broker_subscription_refcount (a : Nat → Bool) (root? : Option String)
    (ops : List RegOp) (model : String) :
    ((mapGet (runOps a (initialState true root?) ops).mqtt.subs
        (topicFor root? model)).isSome = true
      ↔ ∃ i, i ∈ (runOps a (initialState true root?) ops).reg model ∧ a i = true)
  ∧ (∀ ids : List Nat, ids ≠ [] → (∀ i ∈ ids, a i = true) →
      (runOps a (initialState true root?) (ids.map (RegOp.register model))).mqtt.trace
        = [BrokerCmd.sub (topicFor root? model)])
  ∧ (∀ (stm : MqttState) (c j : Nat) (s : List Nat), stm.enabled = true →
      mapGet stm.subs (topicFor stm.root? model) = some s → j ∈ s → j ≠ c →
      (mapGet (unsubscribeFromMqttTopic stm model c).subs
        (topicFor stm.root? model)).isSome = true
      ∧ (unsubscribeFromMqttTopic stm model c).trace = stm.trace)
  ∧ (∀ (stm : MqttState) (c : Nat) (s : List Nat), stm.enabled = true →
      mapGet stm.subs (topicFor stm.root? model) = some s →
      s.filter (fun l => l != c) = [] →
      mapGet (unsubscribeFromMqttTopic stm model c).subs (topicFor stm.root? model) = none
      ∧ (unsubscribeFromMqttTopic stm model c).trace
          = stm.trace ++ [BrokerCmd.unsub (topicFor stm.root? model)]) := by
  refine ⟨?_, ?_, ?_, ?_⟩
  · obtain ⟨_, hinv⟩ := subsInv_runOps a _ ops (subsInv_initial a root?)
    have hroot : (runOps a (initialState true root?) ops).mqtt.root? = root? := by
      rw [runOps_root]
      rfl
    have h := (hinv model).2
    rw [hroot] at h
    exact h
  · intro ids hne hall
    cases ids with
    | nil => exact absurd rfl hne
    | cons i rest =>
      simp only [List.map_cons, runOps]
      have hai : a i = true := hall i (List.mem_cons_self i rest)
      have hmq : (applyOp a (initialState true root?) (RegOp.register model i)).mqtt
          = subscribeToMqttTopic (initialState true root?).mqtt model i := by
        rw [applyOp, prismaEventListener_mqtt, if_pos hai]
      have hnone : mapGet (initialState true root?).mqtt.subs
          (topicFor (initialState true root?).mqtt.root? model) = none := by
        simp [initialState, mapGet]
      have htr1 : (applyOp a (initialState true root?) (RegOp.register model i)).mqtt.trace
          = [BrokerCmd.sub (topicFor root? model)] := by
        rw [hmq, subscribe_trace_of_none (initialState true root?).mqtt model i rfl hnone]
        rfl
      have hen1 : (applyOp a (initialState true root?)
          (RegOp.register model i)).mqtt.enabled = true := by
        rw [hmq, subscribeToMqttTopic_enabled]
        rfl
      have hsome1 : (mapGet (applyOp a (initialState true root?)
          (RegOp.register model i)).mqtt.subs
          (topicFor (applyOp a (initialState true root?)
            (RegOp.register model i)).mqtt.root? model)).isSome = true := by
        rw [hmq, subscribeToMqttTopic_root,
          subscribe_mapGet_self (initialState true root?).mqtt model i rfl]
        rfl
      rw [runOps_registers_trace a model rest _
        (fun j hj => hall j (List.mem_cons_of_mem i hj)) hen1 hsome1]
      exact htr1
  · intro stm c j s hen hget hj hjc
    have hjf : j ∈ s.filter (fun l => l != c) :=
      List.mem_filter.mpr ⟨hj, by simpa [bne_iff_ne] using hjc⟩
    have h3 : (s.filter (fun l => l != c)).isEmpty = false := by
      cases hfe : (s.filter (fun l => l != c)).isEmpty
      · rfl
      · have hemp := List.isEmpty_iff.mp hfe
        rw [hemp] at hjf
        exact absurd hjf (List.not_mem_nil j)
    constructor
    · rw [unsubscribe_mapGet_self_some stm model c s hen hget, if_neg (by simp [h3])]
      rfl
    · simp [unsubscribeFromMqttTopic, hen, hget, h3]
  · intro stm c s hen hget hfil
    have h3 : (s.filter (fun l => l != c)).isEmpty = true := by rw [hfil]; rfl
    constructor
    · rw [unsubscribe_mapGet_self_some stm model c s hen hget, if_pos h3]
    · simp [unsubscribeFromMqttTopic, hen, hget, h3]

/-- Witness for C3: two allowRemote listeners registered for `"user"` yield one
subscribe command; removing identity 0 from a two-element set keeps the entry
and issues nothing; removing it from a singleton set deletes the entry and
issues the unsubscribe; and the subscription-iff-registered equivalence at a
concrete one-registration run. -/
theorem broker_subscription_refcount_witness :
    ((runOps (fun _ => true) (initialState true none)
        ([0, 1].map (RegOp.register "user"))).mqtt.trace
      = [BrokerCmd.sub (topicFor none "user")])
  ∧ ((mapGet (unsubscribeFromMqttTopic ⟨true, none, [(topicFor none "user", [0, 1])], []⟩
        "user" 0).subs (topicFor none "user")).isSome = true
      ∧ (unsubscribeFromMqttTopic ⟨true, none, [(topicFor none "user", [0, 1])], []⟩
        "user" 0).trace = [])
  ∧ (mapGet (unsubscribeFromMqttTopic ⟨true, none, [(topicFor none "user", [0])], []⟩
        "user" 0).subs (topicFor none "user") = none
      ∧ (unsubscribeFromMqttTopic ⟨true, none, [(topicFor none "user", [0])], []⟩
        "user" 0).trace = [BrokerCmd.unsub (topicFor none "user")])
  ∧ ((mapGet (runOps (fun _ => true) (initialState true none)
        [RegOp.register "user" 5]).mqtt.subs (topicFor none "user")).isSome = true
      ↔ ∃ i, i ∈ (runOps (fun _ => true) (initialState true none)
        [RegOp.register "user" 5]).reg "user" ∧ (fun _ => true) i = true) := by
  refine ⟨?_, ?_, ?_, ?_⟩
  · exact (broker_subscription_refcount (fun _ => true) none [] "user").2.1 [0, 1]
      (by decide) (by decide)
  · have h := (broker_subscription_refcount (fun _ => true) none [] "user").2.2.1
      ⟨true, none, [(topicFor none "user", [0, 1])], []⟩ 0 1 [0, 1] rfl (by decide)
      (by decide) (by decide)
    exact h
  · have h := (broker_subscription_refcount (fun _ => true) none [] "user").2.2.2
      ⟨true, none, [(topicFor none "user", [0])], []⟩ 0 [0] rfl (by decide) (by decide)
    exact h
  · exact (broker_subscription_refcount (fun _ => true) none
      [RegOp.register "user" 5] "user").1

end PrismaEmitter
